import Mathlib

/-!
Verification of the PhysicsPotentialLab field-computation core.

The repository derives an electric field from a 2-D grid of potential
values.  The numerical core consists of:

* `calculate_electric_field` (src/3dlab.py, lines 17-20):
  `Ey, Ex = np.gradient(-voltage_data, dy, dx)`, returning `(Ex, Ey)`,
  with default spacing `dx = dy = 0.5`;
* the per-point arrow normalization in `plot_3d_field`
  (src/3dlab.py, lines 66-68): each component is divided by
  `sqrt(Ex^2 + Ey^2) + 1e-10`;
* the Gaussian pre-smoothing `gaussian_filter(voltage_data, sigma=0.5)`
  (src/3dlab.py, line 122);
* the 2-D variant (src/lab.py): `grad_y, grad_x = np.gradient(potential_data)`,
  `Ey, Ex = -grad_y, -grad_x`, bilinear interpolation of the field
  magnitude onto a 30 x 30 sampling grid, and the streamline-density
  normalization `(d - d.min()) / (d.max() - d.min())` (line 56).

Grids are embedded as `List (List ℝ)`; floating-point arithmetic is
idealized as exact real arithmetic.  `np.gradient` (NumPy, edge_order 1)
computes centered differences at interior points and one-sided
differences at the two boundary points of each axis, each divided by the
corresponding spacing, and raises `ValueError` when a differentiated
axis has fewer than 2 samples; the embedding returns `Option` values,
`none` standing for the raised exception.
-/

/-- A 2-D grid of real values, row-major, as produced by
`pd.read_csv(...).values`. -/
abbrev Grid := List (List ℝ)

/-- Entry of a grid at row `i`, column `j` (default `0` out of range). -/
noncomputable def val (g : Grid) (i j : Nat) : ℝ := (g.getD i []).getD j 0

/-- The shape of a grid: the list of its row lengths. -/
def gshape (g : Grid) : List Nat := g.map List.length

/-- The grid is rectangular with `r` rows and `c` columns. -/
def Rect (g : Grid) (r c : Nat) : Prop :=
  g.length = r ∧ ∀ row ∈ g, row.length = c

/-- One-dimensional numerical gradient of NumPy (`edge_order = 1`):
centered difference `(v[i+1] - v[i-1]) / (2*d)` at interior points,
one-sided differences `(v[1] - v[0]) / d` and
`(v[n-1] - v[n-2]) / d` at the two boundary points. -/
noncomputable def gradient1At (d : ℝ) (v : List ℝ) (i : Nat) : ℝ :=
  if i = 0 then (v.getD 1 0 - v.getD 0 0) / d
  else if i = v.length - 1 then
    (v.getD (v.length - 1) 0 - v.getD (v.length - 2) 0) / d
  else (v.getD (i + 1) 0 - v.getD (i - 1) 0) / (2 * d)

/-- Column `j` of a grid, as a list running down the rows. -/
noncomputable def colList (g : Grid) (j : Nat) : List ℝ :=
  g.map (fun row => row.getD j 0)

/-- Gradient along axis 0 (down the rows) with spacing `d`,
the first component of NumPy's `np.gradient` on a 2-D array. -/
noncomputable def gradAxis0 (d : ℝ) (g : Grid) : Grid :=
  (List.range g.length).map (fun i =>
    (List.range ((g.getD i []).length)).map (fun j =>
      gradient1At d (colList g j) i))

/-- Gradient along axis 1 (across each row) with spacing `d`,
the second component of NumPy's `np.gradient` on a 2-D array. -/
noncomputable def gradAxis1 (d : ℝ) (g : Grid) : Grid :=
  g.map (fun row => (List.range row.length).map (fun j => gradient1At d row j))

/-- `np.gradient(g, d0, d1)` on a 2-D array: the pair of axis-0 and
axis-1 gradients.  NumPy raises `ValueError` (modelled as `none`) when a
differentiated axis has fewer than 2 samples. -/
noncomputable def npGradient2 (g : Grid) (d0 d1 : ℝ) : Option (Grid × Grid) :=
  if 2 ≤ g.length ∧ 2 ≤ (g.getD 0 []).length then
    some (gradAxis0 d0 g, gradAxis1 d1 g)
  else none

/-- Elementwise negation of a grid (`-voltage_data`). -/
def negGrid (g : Grid) : Grid := g.map (fun row => row.map (fun x => -x))

/-- src/3dlab.py lines 17-20:
`Ey, Ex = np.gradient(-voltage_data, dy, dx); return Ex, Ey`.
Default spacing in the source is `dx = dy = 0.5`. -/
noncomputable def calculate_electric_field (voltage_data : Grid) (dx dy : ℝ) :
    Option (Grid × Grid) :=
  match npGradient2 (negGrid voltage_data) dy dx with
  | some (gy, gx) => some (gx, gy)
  | none => none

/-- Modelled from the spec: the discrete x-derivative of the potential,
"centered differences at interior points and one-sided differences at
boundaries", divided by the spacing `dx`. -/
noncomputable def dV_dx_spec (g : Grid) (dx : ℝ) (i j : Nat) : ℝ :=
  let row := g.getD i []
  if j = 0 then (row.getD 1 0 - row.getD 0 0) / dx
  else if j = row.length - 1 then
    (row.getD (row.length - 1) 0 - row.getD (row.length - 2) 0) / dx
  else (row.getD (j + 1) 0 - row.getD (j - 1) 0) / (2 * dx)

/-- Modelled from the spec: the discrete y-derivative of the potential,
"centered differences at interior points and one-sided differences at
boundaries", divided by the spacing `dy`. -/
noncomputable def dV_dy_spec (g : Grid) (dy : ℝ) (i j : Nat) : ℝ :=
  let col := colList g j
  if i = 0 then (col.getD 1 0 - col.getD 0 0) / dy
  else if i = col.length - 1 then
    (col.getD (col.length - 1) 0 - col.getD (col.length - 2) 0) / dy
  else (col.getD (i + 1) 0 - col.getD (i - 1) 0) / (2 * dy)

/-- Per-point arrow normalization from `plot_3d_field` (src/3dlab.py,
lines 66-68): each component is divided by
`field_magnitude + 1e-10` where `field_magnitude = sqrt(Ex^2 + Ey^2)`. -/
noncomputable def normalizePoint (ex ey : ℝ) : ℝ × ℝ :=
  (ex / (Real.sqrt (ex ^ 2 + ey ^ 2) + 1e-10),
   ey / (Real.sqrt (ex ^ 2 + ey ^ 2) + 1e-10))

/-- Euclidean magnitude of a 2-D vector. -/
noncomputable def vecMag (p : ℝ × ℝ) : ℝ := Real.sqrt (p.1 ^ 2 + p.2 ^ 2)

/-- `E_magnitude = np.sqrt(Ex**2 + Ey**2)` (src/3dlab.py line 32,
src/lab.py line 27), elementwise over the component grids. -/
noncomputable def magnitudeGrid (fx fy : Grid) : Grid :=
  (List.range fx.length).map (fun i =>
    (List.range ((fx.getD i []).length)).map (fun j =>
      Real.sqrt ((val fx i j) ^ 2 + (val fy i j) ^ 2)))

/-- The normalization of src/3dlab.py lines 66-68 lifted to whole
component grids, as the code computes it: the magnitude grid is formed
first and each component entry is divided by the corresponding
magnitude entry plus `1e-10`. -/
noncomputable def normalizeGrids (fx fy : Grid) : Grid × Grid :=
  ((List.range fx.length).map (fun i =>
      (List.range ((fx.getD i []).length)).map (fun j =>
        val fx i j / (val (magnitudeGrid fx fy) i j + 1e-10))),
   (List.range fy.length).map (fun i =>
      (List.range ((fy.getD i []).length)).map (fun j =>
        val fy i j / (val (magnitudeGrid fx fy) i j + 1e-10))))

/-- Modelled from the spec: "normalize(Fx, Fy, epsilon) divides both
components at each point by sqrt(Fx^2 + Fy^2) + epsilon". -/
noncomputable def normalize_spec (fx fy : Grid) (eps : ℝ) : Grid × Grid :=
  ((List.range fx.length).map (fun i =>
      (List.range ((fx.getD i []).length)).map (fun j =>
        val fx i j / (Real.sqrt ((val fx i j) ^ 2 + (val fy i j) ^ 2) + eps))),
   (List.range fy.length).map (fun i =>
      (List.range ((fy.getD i []).length)).map (fun j =>
        val fy i j / (Real.sqrt ((val fx i j) ^ 2 + (val fy i j) ^ 2) + eps))))

/-- Normalized Gaussian kernel weight of SciPy's `_gaussian_kernel1d`:
`exp(-k^2 / (2 sigma^2))` divided by the sum of these weights over the
window `[-radius, radius]`. -/
noncomputable def gaussWeight (sigma : ℝ) (radius : Nat) (k : ℤ) : ℝ :=
  Real.exp (-((k : ℝ) ^ 2) / (2 * sigma ^ 2)) /
    (Finset.Icc (-(radius : ℤ)) radius).sum
      (fun m => Real.exp (-((m : ℝ) ^ 2) / (2 * sigma ^ 2)))

/-- SciPy boundary mode `reflect` (`(d c b a | a b c d | d c b a)`):
a position is folded into `[0, n)` with period `2 n`. -/
def reflectIdx (n : Nat) (p : ℤ) : Nat :=
  let m := p % (2 * (n : ℤ))
  if m < (n : ℤ) then m.toNat else (2 * (n : ℤ) - 1 - m).toNat

/-- One-dimensional Gaussian correlation at position `i`
(`scipy.ndimage.correlate1d`, boundary mode `reflect`). -/
noncomputable def correlate1dAt (sigma : ℝ) (radius : Nat) (v : List ℝ) (i : Nat) : ℝ :=
  (Finset.Icc (-(radius : ℤ)) radius).sum (fun k =>
    gaussWeight sigma radius k * v.getD (reflectIdx v.length ((i : ℤ) + k)) 0)

/-- Gaussian smoothing pass along axis 0 (down each column). -/
noncomputable def smoothAxis0 (sigma : ℝ) (radius : Nat) (g : Grid) : Grid :=
  (List.range g.length).map (fun i =>
    (List.range ((g.getD i []).length)).map (fun j =>
      correlate1dAt sigma radius (colList g j) i))

/-- Gaussian smoothing pass along axis 1 (across each row). -/
noncomputable def smoothAxis1 (sigma : ℝ) (radius : Nat) (g : Grid) : Grid :=
  g.map (fun row =>
    (List.range row.length).map (fun j => correlate1dAt sigma radius row j))

/-- `scipy.ndimage.gaussian_filter(voltage_data, sigma=0.5)`
(src/3dlab.py, line 122): separable Gaussian blur applied along axis 0
and then axis 1; with the default `truncate = 4.0` the window radius is
`int(4.0 * 0.5 + 0.5) = 2`. -/
noncomputable def gaussian_filter (g : Grid) : Grid :=
  smoothAxis1 (1/2) 2 (smoothAxis0 (1/2) 2 g)

/-- src/lab.py lines 23-24: `grad_y, grad_x = np.gradient(potential_data);
Ey, Ex = -grad_y, -grad_x`, with unit spacing.  The x-component. -/
noncomputable def lab_Ex (g : Grid) : Grid := negGrid (gradAxis1 1 g)

/-- src/lab.py lines 23-24, the y-component. -/
noncomputable def lab_Ey (g : Grid) : Grid := negGrid (gradAxis0 1 g)

/-- src/lab.py line 27: the field-magnitude grid of the 2-D variant. -/
noncomputable def lab_E_magnitude (g : Grid) : Grid :=
  magnitudeGrid (lab_Ex g) (lab_Ey g)

/-- Index of the interpolation cell holding coordinate `y` on the
integer lattice `0, ..., n-1`. -/
noncomputable def cellIdx (n : Nat) (y : ℝ) : Nat :=
  min (Int.floor y).toNat (n - 2)

/-- `scipy.interpolate.RegularGridInterpolator` (linear method) on the
integer lattice `(0..rows-1) x (0..cols-1)`: bilinear interpolation
within the cell of the query point `(y, x)`. -/
noncomputable def interpLinear (g : Grid) (y x : ℝ) : ℝ :=
  let i := cellIdx g.length y
  let j := cellIdx ((g.getD 0 []).length) x
  let ty := y - (i : ℝ)
  let tx := x - (j : ℝ)
  (1 - ty) * ((1 - tx) * val g i j + tx * val g i (j + 1)) +
    ty * ((1 - tx) * val g (i + 1) j + tx * val g (i + 1) (j + 1))

/-- `np.linspace(0, stop, n)`. -/
noncomputable def linspace0 (stop : ℝ) (n : Nat) : List ℝ :=
  (List.range n).map (fun k : Nat => (k : ℝ) * stop / ((n : ℝ) - 1))

/-- src/lab.py lines 42-53: the field magnitude interpolated onto the
`30 x 30` streamplot sampling grid (`nx = ny = 30`), flattened
row-major. -/
noncomputable def lab_density_grid (g : Grid) : List ℝ :=
  ((linspace0 ((g.length : ℝ) - 1) 30).map (fun y =>
    (linspace0 (((g.getD 0 []).length : ℝ) - 1) 30).map (fun x =>
      interpLinear (lab_E_magnitude g) y x))).flatten

/-- Minimum of a list of reals (`.min()` of a nonempty array). -/
noncomputable def listMin : List ℝ → ℝ
  | [] => 0
  | x :: xs => xs.foldl min x

/-- Maximum of a list of reals (`.max()` of a nonempty array). -/
noncomputable def listMax : List ℝ → ℝ
  | [] => 0
  | x :: xs => xs.foldl max x

/-- src/lab.py line 56:
`density_grid = (density_grid - density_grid.min()) / (density_grid.max()
- density_grid.min())`.  The divisor is not guarded; when `max = min`
every entry equals the minimum, so each IEEE quotient is `0.0 / 0.0`,
i.e. NaN — modelled as `none`. -/
noncomputable def lab_density_normalized (g : Grid) : Option (List ℝ) :=
  let ds := lab_density_grid g
  if listMax ds - listMin ds = 0 then none
  else some (ds.map (fun d => (d - listMin ds) / (listMax ds - listMin ds)))

/-- Outcome of `pd.read_csv(file_path, header=None).values`: either a
grid, or a raised parsing exception (empty file, ragged rows with extra
fields, ...). -/
inductive CsvParse where
  | ok (g : Grid)
  | err

/-- Exception NumPy raises during field computation (axis shorter than
2 samples). -/
inductive PyError where
  | valueError
deriving DecidableEq

/-- Observable outcome of running `visualize_electric_field_3d`. -/
inductive RunOutcome where
  | earlyReturn
  | plotted
  | raised (e : PyError)
deriving DecidableEq

/-- src/3dlab.py lines 8-15: any exception from `pd.read_csv` is caught,
an error message is printed, and `None` is returned.  No `InvalidInput`
error type exists anywhere in the program. -/
def load_voltage_data : CsvParse → Option Grid
  | CsvParse.ok g => some g
  | CsvParse.err => none

/-- src/3dlab.py lines 113-128: the computational skeleton of the main
pipeline.  A failed load returns early (`voltage_data is None`);
otherwise the grid is smoothed and handed, without any validation, to
`calculate_electric_field` (inside `plot_3d_field`) with the default
spacing 0.5, where NumPy may raise. -/
noncomputable def visualize_electric_field_3d (p : CsvParse) : RunOutcome :=
  match load_voltage_data p with
  | none => RunOutcome.earlyReturn
  | some g =>
    match calculate_electric_field (gaussian_filter g) (1/2) (1/2) with
    | none => RunOutcome.raised PyError.valueError
    | some _ => RunOutcome.plotted

/-- Every value of the grid lies in the interval `[lo, hi]`. -/
def InBounds (lo hi : ℝ) (g : Grid) : Prop :=
  ∀ row ∈ g, ∀ a ∈ row, lo ≤ a ∧ a ≤ hi

section Helpers

lemma getD_range_map (f : Nat → ℝ) (n i : Nat) (h : i < n) :
    ((List.range n).map f).getD i 0 = f i := by
  rw [List.getD_eq_getElem _ _ (by simpa using h), List.getElem_map,
    List.getElem_range]

lemma getD_range_map_list (f : Nat → List ℝ) (n i : Nat) (h : i < n) :
    ((List.range n).map f).getD i [] = f i := by
  rw [List.getD_eq_getElem _ _ (by simpa using h), List.getElem_map,
    List.getElem_range]

lemma getD_map_list (F : List ℝ → List ℝ) (g : Grid) (i : Nat)
    (h : i < g.length) : (g.map F).getD i [] = F (g.getD i []) := by
  rw [List.getD_eq_getElem _ _ (by simpa using h), List.getElem_map,
    List.getD_eq_getElem _ _ h]

lemma getD_mem_of_lt (g : Grid) (i : Nat) (h : i < g.length) :
    g.getD i [] ∈ g := by
  rw [List.getD_eq_getElem _ _ h]
  exact List.getElem_mem h

lemma getD_map_neg (row : List ℝ) (k : Nat) :
    (row.map (fun x => -x)).getD k 0 = -(row.getD k 0) := by
  rcases lt_or_ge k row.length with h | h
  · rw [List.getD_eq_getElem _ _ (by simpa using h), List.getElem_map,
      List.getD_eq_getElem _ _ h]
  · rw [List.getD_eq_default _ _ (by simpa using h),
      List.getD_eq_default _ _ h, neg_zero]

lemma gradient1At_neg (d : ℝ) (row : List ℝ) (j : Nat) :
    gradient1At d (row.map (fun x => -x)) j = -(gradient1At d row j) := by
  unfold gradient1At
  simp only [List.length_map, getD_map_neg]
  split
  · ring
  · split
    · ring
    · ring

lemma colList_negGrid (g : Grid) (j : Nat) :
    colList (negGrid g) j = (colList g j).map (fun x => -x) := by
  unfold colList negGrid
  rw [List.map_map, List.map_map]
  exact List.map_congr_left (fun row _ => getD_map_neg row j)

lemma length_negGrid (g : Grid) : (negGrid g).length = g.length := by
  simp [negGrid]

lemma rowLength_negGrid (g : Grid) (i : Nat) :
    ((negGrid g).getD i []).length = (g.getD i []).length := by
  rcases lt_or_ge i g.length with h | h
  · rw [show negGrid g = g.map (fun row => row.map (fun x => -x)) from rfl,
      getD_map_list _ _ _ h]
    simp
  · rw [List.getD_eq_default _ _ (by simpa [negGrid] using h),
      List.getD_eq_default _ _ h]

lemma val_gradAxis1 (d : ℝ) (g : Grid) (i j : Nat)
    (hi : i < g.length) (hj : j < (g.getD i []).length) :
    val (gradAxis1 d g) i j = gradient1At d (g.getD i []) j := by
  unfold val gradAxis1
  rw [getD_map_list _ _ _ hi, getD_range_map _ _ _ hj]

lemma val_gradAxis0 (d : ℝ) (g : Grid) (i j : Nat)
    (hi : i < g.length) (hj : j < (g.getD i []).length) :
    val (gradAxis0 d g) i j = gradient1At d (colList g j) i := by
  unfold val gradAxis0
  rw [getD_range_map_list _ _ _ hi, getD_range_map _ _ _ hj]

lemma getD_const (row : List ℝ) (k : ℝ) (m : Nat)
    (hconst : ∀ a ∈ row, a = k) (h : m < row.length) : row.getD m 0 = k := by
  rw [List.getD_eq_getElem _ _ h]
  exact hconst _ (List.getElem_mem h)

lemma gradient1At_const (d k : ℝ) (v : List ℝ) (hv : ∀ a ∈ v, a = k)
    (h2 : 2 ≤ v.length) (i : Nat) (hi : i < v.length) :
    gradient1At d v i = 0 := by
  unfold gradient1At
  by_cases h0 : i = 0
  · rw [if_pos h0, getD_const v k 1 hv (by omega), getD_const v k 0 hv (by omega)]
    simp
  · rw [if_neg h0]
    by_cases hl : i = v.length - 1
    · rw [if_pos hl, getD_const v k _ hv (by omega), getD_const v k _ hv (by omega)]
      simp
    · rw [if_neg hl, getD_const v k _ hv (by omega), getD_const v k _ hv (by omega)]
      simp

lemma length_colList (g : Grid) (j : Nat) : (colList g j).length = g.length := by
  simp [colList]

lemma colList_const (g : Grid) (r c : Nat) (k : ℝ) (j : Nat)
    (hrect : Rect g r c) (hconst : ∀ row ∈ g, ∀ a ∈ row, a = k) (hj : j < c) :
    ∀ a ∈ colList g j, a = k := by
  intro a ha
  rcases List.mem_map.mp ha with ⟨row, hrow, rfl⟩
  exact getD_const row k j (hconst row hrow) (by rw [hrect.2 row hrow]; exact hj)

lemma val_negGrid (g : Grid) (i j : Nat) : val (negGrid g) i j = -(val g i j) := by
  unfold val
  rcases lt_or_ge i g.length with h | h
  · rw [show negGrid g = g.map (fun row => row.map (fun x => -x)) from rfl,
      getD_map_list _ g i h, getD_map_neg]
  · have h1 : (negGrid g).length ≤ i := by simpa [negGrid] using h
    rw [List.getD_eq_default (negGrid g) [] h1, List.getD_eq_default g [] h]
    simp

lemma dV_dx_spec_eq (g : Grid) (dx : ℝ) (i j : Nat) :
    dV_dx_spec g dx i j = gradient1At dx (g.getD i []) j := rfl

lemma dV_dy_spec_eq (g : Grid) (dy : ℝ) (i j : Nat) :
    dV_dy_spec g dy i j = gradient1At dy (colList g j) i := rfl

lemma range_length_map_getD {β : Type} (l : List (List ℝ)) (f : List ℝ → β) :
    (List.range l.length).map (fun i => f (l.getD i [])) = l.map f := by
  induction l with
  | nil => rfl
  | cons a t ih =>
    rw [List.length_cons, List.range_succ_eq_map, List.map_cons, List.map_map]
    simp only [Function.comp_def, List.getD_cons_zero, List.getD_cons_succ]
    rw [ih]
    rfl

lemma gshape_negGrid (g : Grid) : gshape (negGrid g) = gshape g := by
  unfold gshape negGrid
  rw [List.map_map]
  exact List.map_congr_left (fun row _ => by simp)

lemma gshape_gradAxis1 (d : ℝ) (g : Grid) :
    gshape (gradAxis1 d g) = gshape g := by
  unfold gshape gradAxis1
  rw [List.map_map]
  exact List.map_congr_left (fun row _ => by simp)

lemma gshape_gradAxis0 (d : ℝ) (g : Grid) :
    gshape (gradAxis0 d g) = gshape g := by
  unfold gshape gradAxis0
  rw [List.map_map]
  simp only [Function.comp_def, List.length_map, List.length_range]
  exact range_length_map_getD g List.length

end Helpers

/-- C1 counterexample: on the constant 1 x 1 grid `[[5]]` (a rectangular
potential grid) with positive spacing 0.5, `calculate_electric_field`
does not return the all-zero vector field the claim promises: NumPy
raises `ValueError` because the axes have fewer than 2 samples, so no
field at all is returned. -/
theorem calc_field_constant_grid_cex :
    calculate_electric_field [[(5 : ℝ)]] (1/2) (1/2) = none := by
  simp [calculate_electric_field, npGradient2, negGrid]

/-- C4 counterexample: `[[1, 2]]` is a well-formed rectangular grid
(1 row, 2 columns) and the spacing 0.5 is positive, yet
`calculate_electric_field` raises (`none`) instead of returning arrays
of the input's shape. -/
theorem calc_field_shape_cex :
    calculate_electric_field [[(1 : ℝ), 2]] (1/2) (1/2) = none := by
  simp [calculate_electric_field, npGradient2, negGrid]

/-- C1 (amended): for every rectangular grid with at least 2 rows and
2 columns and positive spacing, `calculate_electric_field` returns the
negative discrete gradient: centered differences at interior points,
one-sided differences at boundary points, each divided by the
corresponding spacing, with `Fx = -dV/dx` and `Fy = -dV/dy`; a constant
grid yields an all-zero vector field.  The 2-D variant of src/lab.py
(negating after `np.gradient` instead of before) realizes the same
negative gradient with unit spacing. -/
theorem calculate_electric_field_matches_spec (g : Grid) (r c : Nat) (dx dy : ℝ)
    (hrect : Rect g r c) (hr : 2 ≤ r) (hc : 2 ≤ c) (hdx : 0 < dx) (hdy : 0 < dy) :
    ∃ fx fy,
      calculate_electric_field g dx dy = some (fx, fy) ∧
      (∀ i, i < r → ∀ j, j < c →
        val fx i j = -(dV_dx_spec g dx i j) ∧ val fy i j = -(dV_dy_spec g dy i j)) ∧
      (∀ k, (∀ row ∈ g, ∀ a ∈ row, a = k) →
        ∀ i, i < r → ∀ j, j < c → val fx i j = 0 ∧ val fy i j = 0) ∧
      (∀ i, i < r → ∀ j, j < c →
        val (lab_Ex g) i j = -(dV_dx_spec g 1 i j) ∧
        val (lab_Ey g) i j = -(dV_dy_spec g 1 i j)) := by
  have hgl : g.length = r := hrect.1
  have hlen0 : (g.getD 0 []).length = c :=
    hrect.2 _ (getD_mem_of_lt g 0 (by omega))
  have hrowlen : ∀ i, i < r → (g.getD i []).length = c := fun i hi =>
    hrect.2 _ (getD_mem_of_lt g i (by omega))
  have hformula : ∀ i, i < r → ∀ j, j < c →
      val (gradAxis1 dx (negGrid g)) i j = -(dV_dx_spec g dx i j) ∧
      val (gradAxis0 dy (negGrid g)) i j = -(dV_dy_spec g dy i j) := by
    intro i hi j hj
    have hig : i < (negGrid g).length := by rw [length_negGrid, hgl]; exact hi
    have hjg : j < ((negGrid g).getD i []).length := by
      rw [rowLength_negGrid, hrowlen i hi]; exact hj
    constructor
    · rw [val_gradAxis1 dx (negGrid g) i j hig hjg,
        show (negGrid g).getD i [] = (g.getD i []).map (fun x => -x) from
          getD_map_list _ g i (by omega),
        gradient1At_neg, dV_dx_spec_eq]
    · rw [val_gradAxis0 dy (negGrid g) i j hig hjg, colList_negGrid,
        gradient1At_neg, dV_dy_spec_eq]
  refine ⟨gradAxis1 dx (negGrid g), gradAxis0 dy (negGrid g), ?_, hformula, ?_, ?_⟩
  · have hcond : 2 ≤ (negGrid g).length ∧ 2 ≤ ((negGrid g).getD 0 []).length := by
      constructor
      · rw [length_negGrid, hgl]; exact hr
      · rw [rowLength_negGrid, hlen0]; exact hc
    unfold calculate_electric_field npGradient2
    rw [if_pos hcond]
  · intro k hk i hi j hj
    have hx : dV_dx_spec g dx i j = 0 := by
      rw [dV_dx_spec_eq]
      exact gradient1At_const dx k (g.getD i [])
        (hk _ (getD_mem_of_lt g i (by omega)))
        (by rw [hrowlen i hi]; exact hc) j (by rw [hrowlen i hi]; exact hj)
    have hy : dV_dy_spec g dy i j = 0 := by
      rw [dV_dy_spec_eq]
      exact gradient1At_const dy k (colList g j)
        (colList_const g r c k j hrect hk hj)
        (by rw [length_colList, hgl]; exact hr) i (by rw [length_colList, hgl]; exact hi)
    have h1 := (hformula i hi j hj).1
    have h2 := (hformula i hi j hj).2
    rw [hx] at h1
    rw [hy] at h2
    simpa using And.intro h1 h2
  · intro i hi j hj
    have hig : i < g.length := by omega
    have hjg : j < (g.getD i []).length := by rw [hrowlen i hi]; exact hj
    constructor
    · rw [show lab_Ex g = negGrid (gradAxis1 1 g) from rfl, val_negGrid,
        val_gradAxis1 1 g i j hig hjg, dV_dx_spec_eq]
    · rw [show lab_Ey g = negGrid (gradAxis0 1 g) from rfl, val_negGrid,
        val_gradAxis0 1 g i j hig hjg, dV_dy_spec_eq]

/-- C1 witness: the amended theorem instantiated on the concrete grid
`[[0, 1], [2, 3]]` with spacing 0.5. -/
theorem calculate_electric_field_matches_spec_witness :
    ∃ fx fy,
      calculate_electric_field [[(0 : ℝ), 1], [2, 3]] (1/2) (1/2) = some (fx, fy) ∧
      (∀ i, i < 2 → ∀ j, j < 2 →
        val fx i j = -(dV_dx_spec [[(0 : ℝ), 1], [2, 3]] (1/2) i j) ∧
        val fy i j = -(dV_dy_spec [[(0 : ℝ), 1], [2, 3]] (1/2) i j)) ∧
      (∀ k, (∀ row ∈ [[(0 : ℝ), 1], [2, 3]], ∀ a ∈ row, a = k) →
        ∀ i, i < 2 → ∀ j, j < 2 → val fx i j = 0 ∧ val fy i j = 0) ∧
      (∀ i, i < 2 → ∀ j, j < 2 →
        val (lab_Ex [[(0 : ℝ), 1], [2, 3]]) i j =
          -(dV_dx_spec [[(0 : ℝ), 1], [2, 3]] 1 i j) ∧
        val (lab_Ey [[(0 : ℝ), 1], [2, 3]]) i j =
          -(dV_dy_spec [[(0 : ℝ), 1], [2, 3]] 1 i j)) := by
  refine calculate_electric_field_matches_spec [[(0 : ℝ), 1], [2, 3]] 2 2 (1/2) (1/2)
    ⟨rfl, ?_⟩ (by omega) (by omega) (by norm_num) (by norm_num)
  intro row hrow
  rcases List.mem_cons.mp hrow with h | h
  · subst h; rfl
  · rcases List.mem_cons.mp h with h2 | h2
    · subst h2; rfl
    · simp at h2

/-- C4 (amended): for every rectangular grid with at least 2 rows and
2 columns and positive spacing, `calculate_electric_field` raises no
exception and returns two arrays whose shape equals the shape of the
input grid. -/
theorem calculate_electric_field_shape (g : Grid) (r c : Nat) (dx dy : ℝ)
    (hrect : Rect g r c) (hr : 2 ≤ r) (hc : 2 ≤ c) (hdx : 0 < dx) (hdy : 0 < dy) :
    ∃ fx fy, calculate_electric_field g dx dy = some (fx, fy) ∧
      gshape fx = gshape g ∧ gshape fy = gshape g := by
  refine ⟨gradAxis1 dx (negGrid g), gradAxis0 dy (negGrid g), ?_, ?_, ?_⟩
  · have hlen0 : (g.getD 0 []).length = c :=
      hrect.2 _ (getD_mem_of_lt g 0 (by rw [hrect.1]; omega))
    have hcond : 2 ≤ (negGrid g).length ∧ 2 ≤ ((negGrid g).getD 0 []).length := by
      constructor
      · rw [length_negGrid, hrect.1]; exact hr
      · rw [rowLength_negGrid, hlen0]; exact hc
    unfold calculate_electric_field npGradient2
    rw [if_pos hcond]
  · rw [gshape_gradAxis1, gshape_negGrid]
  · rw [gshape_gradAxis0, gshape_negGrid]

/-- C4 witness: the amended theorem instantiated on the concrete grid
`[[1, 2], [3, 4]]` with spacing 0.5. -/
theorem calculate_electric_field_shape_witness :
    ∃ fx fy,
      calculate_electric_field [[(1 : ℝ), 2], [3, 4]] (1/2) (1/2) = some (fx, fy) ∧
      gshape fx = gshape [[(1 : ℝ), 2], [3, 4]] ∧
      gshape fy = gshape [[(1 : ℝ), 2], [3, 4]] := by
  refine calculate_electric_field_shape [[(1 : ℝ), 2], [3, 4]] 2 2 (1/2) (1/2)
    ⟨rfl, ?_⟩ (by omega) (by omega) (by norm_num) (by norm_num)
  intro row hrow
  rcases List.mem_cons.mp hrow with h | h
  · subst h; rfl
  · rcases List.mem_cons.mp h with h2 | h2
    · subst h2; rfl
    · simp at h2

lemma val_rangeMap (f : Nat → Nat → ℝ) (rows : Nat) (cols : Nat → Nat) (i j : Nat)
    (hi : i < rows) (hj : j < cols i) :
    val ((List.range rows).map (fun a => (List.range (cols a)).map (f a))) i j
      = f i j := by
  show (((List.range rows).map
    (fun a => (List.range (cols a)).map (f a))).getD i []).getD j 0 = f i j
  rw [getD_range_map_list _ _ _ hi, getD_range_map _ _ _ hj]

lemma val_magnitudeGrid (fx fy : Grid) (i j : Nat)
    (hi : i < fx.length) (hj : j < (fx.getD i []).length) :
    val (magnitudeGrid fx fy) i j
      = Real.sqrt ((val fx i j) ^ 2 + (val fy i j) ^ 2) :=
  val_rangeMap (fun a b => Real.sqrt ((val fx a b) ^ 2 + (val fy a b) ^ 2))
    fx.length (fun a => (fx.getD a []).length) i j hi hj

lemma vecMag_normalizePoint (ex ey : ℝ) :
    vecMag (normalizePoint ex ey)
      = vecMag (ex, ey) / (vecMag (ex, ey) + 1e-10) := by
  unfold vecMag normalizePoint
  have hm : (0 : ℝ) ≤ Real.sqrt (ex ^ 2 + ey ^ 2) := Real.sqrt_nonneg _
  have hd : (0 : ℝ) < Real.sqrt (ex ^ 2 + ey ^ 2) + 1e-10 := by linarith
  have h1 : (ex / (Real.sqrt (ex ^ 2 + ey ^ 2) + 1e-10)) ^ 2 +
      (ey / (Real.sqrt (ex ^ 2 + ey ^ 2) + 1e-10)) ^ 2
      = (ex ^ 2 + ey ^ 2) / (Real.sqrt (ex ^ 2 + ey ^ 2) + 1e-10) ^ 2 := by
    rw [div_pow, div_pow, div_add_div_same]
  show Real.sqrt _ = _
  rw [h1, Real.sqrt_div (by positivity), Real.sqrt_sq (le_of_lt hd)]

/-- C2: the normalization of src/3dlab.py lines 66-68 (magnitude grid
computed first, then each component divided by its entry plus `1e-10`)
agrees exactly, on same-shape component grids, with the specified
operation "divide both components at each point by
sqrt(Fx^2 + Fy^2) + epsilon" at the default `epsilon = 1e-10`. -/
theorem normalizeGrids_eq_spec (fx fy : Grid) (r c : Nat)
    (hfx : Rect fx r c) (hfy : Rect fy r c) :
    normalizeGrids fx fy = normalize_spec fx fy 1e-10 := by
  have hrowfx : ∀ i, i < r → (fx.getD i []).length = c := fun i hi =>
    hfx.2 _ (getD_mem_of_lt fx i (by rw [hfx.1]; exact hi))
  have hrowfy : ∀ i, i < r → (fy.getD i []).length = c := fun i hi =>
    hfy.2 _ (getD_mem_of_lt fy i (by rw [hfy.1]; exact hi))
  have hmag : ∀ i, i < r → ∀ j, j < c →
      val (magnitudeGrid fx fy) i j
        = Real.sqrt ((val fx i j) ^ 2 + (val fy i j) ^ 2) := fun i hi j hj =>
    val_magnitudeGrid fx fy i j (by rw [hfx.1]; exact hi)
      (by rw [hrowfx i hi]; exact hj)
  unfold normalizeGrids normalize_spec
  refine Prod.ext ?_ ?_
  · show (List.range fx.length).map _ = (List.range fx.length).map _
    refine List.map_congr_left (fun i hi => ?_)
    refine List.map_congr_left (fun j hj => ?_)
    have hi' : i < r := by rw [← hfx.1]; exact List.mem_range.mp hi
    have hj' : j < c := by
      rw [← hrowfx i hi']; exact List.mem_range.mp hj
    rw [hmag i hi' j hj']
  · show (List.range fy.length).map _ = (List.range fy.length).map _
    refine List.map_congr_left (fun i hi => ?_)
    refine List.map_congr_left (fun j hj => ?_)
    have hi' : i < r := by rw [← hfy.1]; exact List.mem_range.mp hi
    have hj' : j < c := by
      rw [← hrowfy i hi']; exact List.mem_range.mp hj
    rw [hmag i hi' j hj']

/-- C2 witness: the theorem instantiated on the concrete 1 x 1
component grids `[[3]]` and `[[4]]`. -/
theorem normalizeGrids_eq_spec_witness :
    normalizeGrids [[(3 : ℝ)]] [[(4 : ℝ)]]
      = normalize_spec [[(3 : ℝ)]] [[(4 : ℝ)]] 1e-10 := by
  refine normalizeGrids_eq_spec [[(3 : ℝ)]] [[(4 : ℝ)]] 1 1 ⟨rfl, ?_⟩ ⟨rfl, ?_⟩
  · intro row hrow
    rcases List.mem_cons.mp hrow with h | h
    · subst h; rfl
    · simp at h
  · intro row hrow
    rcases List.mem_cons.mp hrow with h | h
    · subst h; rfl
    · simp at h

/-- C3: at any in-range point where both components are exactly zero,
the normalization of src/3dlab.py lines 66-68 returns the exact zero
vector, and its divisor `sqrt(Fx^2 + Fy^2) + 1e-10` is strictly
positive, so no division-by-zero fault or NaN can arise. -/
theorem normalize_zero_vector_safe (fx fy : Grid) (i j : Nat)
    (hi1 : i < fx.length) (hj1 : j < (fx.getD i []).length)
    (hi2 : i < fy.length) (hj2 : j < (fy.getD i []).length)
    (hx : val fx i j = 0) (hy : val fy i j = 0) :
    val (normalizeGrids fx fy).1 i j = 0 ∧
    val (normalizeGrids fx fy).2 i j = 0 ∧
    0 < Real.sqrt ((val fx i j) ^ 2 + (val fy i j) ^ 2) + 1e-10 := by
  refine ⟨?_, ?_, by positivity⟩
  · show val ((List.range fx.length).map (fun a =>
      (List.range ((fx.getD a []).length)).map (fun b =>
        val fx a b / (val (magnitudeGrid fx fy) a b + 1e-10)))) i j = 0
    rw [val_rangeMap _ fx.length (fun a => (fx.getD a []).length) i j hi1 hj1,
      hx, zero_div]
  · show val ((List.range fy.length).map (fun a =>
      (List.range ((fy.getD a []).length)).map (fun b =>
        val fy a b / (val (magnitudeGrid fx fy) a b + 1e-10)))) i j = 0
    rw [val_rangeMap _ fy.length (fun a => (fy.getD a []).length) i j hi2 hj2,
      hy, zero_div]

/-- C3 witness: the theorem instantiated at the zero point of the
concrete grids `[[0]]`, `[[0]]`. -/
theorem normalize_zero_vector_safe_witness :
    val (normalizeGrids [[(0 : ℝ)]] [[(0 : ℝ)]]).1 0 0 = 0 ∧
    val (normalizeGrids [[(0 : ℝ)]] [[(0 : ℝ)]]).2 0 0 = 0 ∧
    0 < Real.sqrt ((val [[(0 : ℝ)]] 0 0) ^ 2 + (val [[(0 : ℝ)]] 0 0) ^ 2)
        + 1e-10 := by
  have hv : val [[(0 : ℝ)]] 0 0 = 0 := rfl
  exact normalize_zero_vector_safe [[(0 : ℝ)]] [[(0 : ℝ)]] 0 0
    (by simp) (by simp) (by simp) (by simp) hv hv

/-- C6 counterexample: the vector `(1e-10, 0)` has nonzero components,
yet the normalized vector of src/3dlab.py lines 66-68 has magnitude
`1e-10 / (1e-10 + 1e-10) = 1/2`, which is not within `1e-10` of `1.0`. -/
theorem normalize_unit_mag_cex :
    ((1e-10 : ℝ) ≠ 0 ∨ (0 : ℝ) ≠ 0) ∧
    1e-10 < |vecMag (normalizePoint 1e-10 0) - 1| := by
  constructor
  · left; norm_num
  · have h : vecMag ((1e-10 : ℝ), (0 : ℝ)) = 1e-10 := by
      unfold vecMag
      rw [show ((1e-10 : ℝ)) ^ 2 + (0 : ℝ) ^ 2 = ((1e-10 : ℝ)) ^ 2 by ring,
        Real.sqrt_sq (by norm_num)]
    rw [vecMag_normalizePoint, h,
      show (1e-10 : ℝ) / (1e-10 + 1e-10) = 1/2 by norm_num,
      show (1/2 : ℝ) - 1 = -(1/2) by norm_num, abs_neg,
      abs_of_nonneg (by norm_num : (0 : ℝ) ≤ 1/2)]
    norm_num

/-- C6 (amended): the normalization of src/3dlab.py lines 66-68 yields
a vector whose magnitude is within `1e-10` of `1.0` for every vector of
magnitude at least 1; for smaller vectors the output magnitude is
`m / (m + 1e-10)`, which degrades toward 0 as `m` shrinks. -/
theorem normalize_unit_mag_amended (ex ey : ℝ) (h : 1 ≤ vecMag (ex, ey)) :
    |vecMag (normalizePoint ex ey) - 1| ≤ 1e-10 := by
  rw [vecMag_normalizePoint]
  have hm : 0 ≤ vecMag (ex, ey) := Real.sqrt_nonneg _
  have hd : (0 : ℝ) < vecMag (ex, ey) + 1e-10 := by linarith
  rw [div_sub_one (ne_of_gt hd),
    show vecMag (ex, ey) - (vecMag (ex, ey) + 1e-10) = -(1e-10) by ring,
    neg_div, abs_neg, abs_of_nonneg (by positivity), div_le_iff hd]
  nlinarith

/-- C6 witness: the amended theorem applied to the unit vector
`(1, 0)`. -/
theorem normalize_unit_mag_amended_witness :
    1 ≤ vecMag ((1 : ℝ), (0 : ℝ)) ∧
    |vecMag (normalizePoint 1 0) - 1| ≤ 1e-10 := by
  have h : vecMag ((1 : ℝ), (0 : ℝ)) = 1 := by
    unfold vecMag
    rw [show ((1 : ℝ)) ^ 2 + (0 : ℝ) ^ 2 = 1 by ring, Real.sqrt_one]
  exact ⟨le_of_eq h.symm, normalize_unit_mag_amended 1 0 (le_of_eq h.symm)⟩

/-- C10: the epsilon-floor normalization of src/3dlab.py lines 66-68
yields a vector of magnitude exactly `m / (m + 1e-10)` where
`m = sqrt(Fx^2 + Fy^2)`; this magnitude is always strictly below 1 and
is strictly monotone in the input magnitude. -/
theorem normalize_exact_magnitude (ex ey ex2 ey2 : ℝ) :
    vecMag (normalizePoint ex ey)
        = vecMag (ex, ey) / (vecMag (ex, ey) + 1e-10) ∧
    vecMag (normalizePoint ex ey) < 1 ∧
    (vecMag (ex, ey) < vecMag (ex2, ey2) →
      vecMag (normalizePoint ex ey) < vecMag (normalizePoint ex2 ey2)) := by
  have hm1 : 0 ≤ vecMag (ex, ey) := Real.sqrt_nonneg _
  have hm2 : 0 ≤ vecMag (ex2, ey2) := Real.sqrt_nonneg _
  refine ⟨vecMag_normalizePoint ex ey, ?_, ?_⟩
  · rw [vecMag_normalizePoint, div_lt_one (by linarith)]
    linarith
  · intro hlt
    rw [vecMag_normalizePoint, vecMag_normalizePoint,
      div_lt_div_iff (by linarith) (by linarith)]
    nlinarith [mul_pos (sub_pos.mpr hlt) (show (0 : ℝ) < 1e-10 by norm_num)]

/-- C10 witness: the theorem instantiated at the vectors `(3, 4)` of
magnitude 5 and `(5, 12)` of magnitude 13. -/
theorem normalize_exact_magnitude_witness :
    vecMag (normalizePoint 3 4) = 5 / (5 + 1e-10) ∧
    vecMag (normalizePoint 3 4) < 1 ∧
    vecMag (normalizePoint 3 4) < vecMag (normalizePoint 5 12) := by
  have h1 : vecMag ((3 : ℝ), (4 : ℝ)) = 5 := by
    unfold vecMag
    rw [show ((3 : ℝ)) ^ 2 + (4 : ℝ) ^ 2 = 5 ^ 2 by norm_num,
      Real.sqrt_sq (by norm_num)]
  have h2 : vecMag ((5 : ℝ), (12 : ℝ)) = 13 := by
    unfold vecMag
    rw [show ((5 : ℝ)) ^ 2 + (12 : ℝ) ^ 2 = 13 ^ 2 by norm_num,
      Real.sqrt_sq (by norm_num)]
  obtain ⟨e1, e2, e3⟩ := normalize_exact_magnitude 3 4 5 12
  refine ⟨by rw [e1, h1], e2, e3 (by rw [h1, h2]; norm_num)⟩

/-- C8: `calculate_electric_field` and the normalization are
deterministic — identical inputs give identical outputs.  Freedom from
side effects is reflected in the embedding itself: both operations are
functions of their argument grids alone (in the source, `np.gradient`
and the arithmetic at src/3dlab.py lines 66-68 allocate fresh arrays
and never assign into their inputs or any global state). -/
theorem field_ops_deterministic (v1 v2 fx1 fy1 fx2 fy2 : Grid) (dx dy : ℝ)
    (hv : v1 = v2) (hfx : fx1 = fx2) (hfy : fy1 = fy2) :
    calculate_electric_field v1 dx dy = calculate_electric_field v2 dx dy ∧
    normalizeGrids fx1 fy1 = normalizeGrids fx2 fy2 := by
  subst hv; subst hfx; subst hfy
  exact ⟨rfl, rfl⟩

/-- C8 witness: determinism at concrete inputs. -/
theorem field_ops_deterministic_witness :
    calculate_electric_field [[(1 : ℝ), 2], [3, 4]] (1/2) (1/2)
        = calculate_electric_field [[(1 : ℝ), 2], [3, 4]] (1/2) (1/2) ∧
    normalizeGrids [[(1 : ℝ)]] [[(2 : ℝ)]]
        = normalizeGrids [[(1 : ℝ)]] [[(2 : ℝ)]] :=
  field_ops_deterministic [[(1 : ℝ), 2], [3, 4]] [[(1 : ℝ), 2], [3, 4]]
    [[(1 : ℝ)]] [[(2 : ℝ)]] [[(1 : ℝ)]] [[(2 : ℝ)]] (1/2) (1/2) rfl rfl rfl

/-- C5 counterexample: an input whose CSV parse fails (for example an
empty file) is malformed input, yet the pipeline does not raise an
`InvalidInput` error — `load_voltage_data` swallows the exception and
the main function silently returns early. -/
theorem invalid_input_not_raised_cex :
    visualize_electric_field_3d CsvParse.err = RunOutcome.earlyReturn ∧
    RunOutcome.earlyReturn ≠ RunOutcome.raised PyError.valueError := by
  exact ⟨rfl, by simp⟩

/-- C5 (amended): no InvalidInput validation exists.  Malformed input
that fails CSV parsing is caught inside `load_voltage_data`, which
returns `None`, and the pipeline returns early without raising any
error; input that parses is handed to the field computation without any
validation, and a degenerate grid (here a single-column grid) only
fails there, with NumPy's `ValueError`, after computation has begun. -/
theorem malformed_input_behavior :
    visualize_electric_field_3d CsvParse.err = RunOutcome.earlyReturn ∧
    visualize_electric_field_3d (CsvParse.ok [[(1 : ℝ)], [2]])
        = RunOutcome.raised PyError.valueError := by
  constructor
  · rfl
  · rfl

lemma gaussZ_pos (sigma : ℝ) (radius : Nat) :
    0 < (Finset.Icc (-(radius : ℤ)) radius).sum
      (fun m => Real.exp (-((m : ℝ) ^ 2) / (2 * sigma ^ 2))) :=
  Finset.sum_pos (fun m _ => Real.exp_pos _)
    ⟨0, Finset.mem_Icc.mpr
      ⟨neg_nonpos.mpr (Int.natCast_nonneg radius), Int.natCast_nonneg radius⟩⟩

lemma gaussWeight_nonneg (sigma : ℝ) (radius : Nat) (k : ℤ) :
    0 ≤ gaussWeight sigma radius k :=
  div_nonneg (le_of_lt (Real.exp_pos _)) (le_of_lt (gaussZ_pos sigma radius))

lemma gaussWeight_sum (sigma : ℝ) (radius : Nat) :
    (Finset.Icc (-(radius : ℤ)) radius).sum (gaussWeight sigma radius) = 1 := by
  unfold gaussWeight
  rw [← Finset.sum_div]
  exact div_self (ne_of_gt (gaussZ_pos sigma radius))

lemma reflectIdx_lt (n : Nat) (p : ℤ) (hn : 0 < n) : reflectIdx n p < n := by
  unfold reflectIdx
  have h2n : (0 : ℤ) < 2 * (n : ℤ) := by
    have : (0 : ℤ) < (n : ℤ) := Int.natCast_pos.mpr hn
    linarith
  have hm0 : 0 ≤ p % (2 * (n : ℤ)) := Int.emod_nonneg p (ne_of_gt h2n)
  have hm2 : p % (2 * (n : ℤ)) < 2 * (n : ℤ) := Int.emod_lt_of_pos p h2n
  by_cases h : p % (2 * (n : ℤ)) < (n : ℤ)
  · rw [if_pos h]
    omega
  · rw [if_neg h]
    omega

lemma getD_reflect_mem (v : List ℝ) (q : ℤ) (hv : 0 < v.length) :
    v.getD (reflectIdx v.length q) 0 ∈ v := by
  rw [List.getD_eq_getElem _ _ (reflectIdx_lt v.length q hv)]
  exact List.getElem_mem _

lemma correlate1dAt_mem_bounds (sigma : ℝ) (radius : Nat) (v : List ℝ) (i : Nat)
    (lo hi : ℝ) (hv : ∀ a ∈ v, lo ≤ a ∧ a ≤ hi) (hlen : 0 < v.length) :
    lo ≤ correlate1dAt sigma radius v i ∧ correlate1dAt sigma radius v i ≤ hi := by
  unfold correlate1dAt
  constructor
  · have h1 : (Finset.Icc (-(radius : ℤ)) radius).sum
        (fun k => gaussWeight sigma radius k * lo)
        ≤ (Finset.Icc (-(radius : ℤ)) radius).sum (fun k =>
            gaussWeight sigma radius k *
              v.getD (reflectIdx v.length ((i : ℤ) + k)) 0) :=
      Finset.sum_le_sum (fun k _ =>
        mul_le_mul_of_nonneg_left ((hv _ (getD_reflect_mem v _ hlen)).1)
          (gaussWeight_nonneg sigma radius k))
    calc lo
        = (Finset.Icc (-(radius : ℤ)) radius).sum
            (gaussWeight sigma radius) * lo := by
          rw [gaussWeight_sum, one_mul]
      _ = (Finset.Icc (-(radius : ℤ)) radius).sum
            (fun k => gaussWeight sigma radius k * lo) :=
          Finset.sum_mul _ _ _
      _ ≤ _ := h1
  · have h1 : (Finset.Icc (-(radius : ℤ)) radius).sum (fun k =>
        gaussWeight sigma radius k *
          v.getD (reflectIdx v.length ((i : ℤ) + k)) 0)
        ≤ (Finset.Icc (-(radius : ℤ)) radius).sum
            (fun k => gaussWeight sigma radius k * hi) :=
      Finset.sum_le_sum (fun k _ =>
        mul_le_mul_of_nonneg_left ((hv _ (getD_reflect_mem v _ hlen)).2)
          (gaussWeight_nonneg sigma radius k))
    calc (Finset.Icc (-(radius : ℤ)) radius).sum (fun k =>
          gaussWeight sigma radius k *
            v.getD (reflectIdx v.length ((i : ℤ) + k)) 0)
        ≤ (Finset.Icc (-(radius : ℤ)) radius).sum
            (fun k => gaussWeight sigma radius k * hi) := h1
      _ = (Finset.Icc (-(radius : ℤ)) radius).sum
            (gaussWeight sigma radius) * hi := (Finset.sum_mul _ _ _).symm
      _ = hi := by rw [gaussWeight_sum, one_mul]

lemma colList_inBounds (g : Grid) (r c : Nat) (j : Nat) (lo hi : ℝ)
    (hrect : Rect g r c) (hb : InBounds lo hi g) (hj : j < c) :
    ∀ a ∈ colList g j, lo ≤ a ∧ a ≤ hi := by
  intro a ha
  rcases List.mem_map.mp ha with ⟨row, hrow, rfl⟩
  have hlen : j < row.length := by rw [hrect.2 row hrow]; exact hj
  exact hb row hrow _
    (by rw [List.getD_eq_getElem _ _ hlen]; exact List.getElem_mem hlen)

lemma inBounds_smoothAxis0 (sigma : ℝ) (radius : Nat) (g : Grid) (r c : Nat)
    (hrect : Rect g r c) (hr : 0 < r) (lo hi : ℝ) (hb : InBounds lo hi g) :
    InBounds lo hi (smoothAxis0 sigma radius g) := by
  intro row hrow a ha
  rcases List.mem_map.mp hrow with ⟨i, him, rfl⟩
  rcases List.mem_map.mp ha with ⟨j, hjm, rfl⟩
  have hig : i < g.length := List.mem_range.mp him
  have hjc : j < c := by
    rw [← hrect.2 _ (getD_mem_of_lt g i hig)]
    exact List.mem_range.mp hjm
  exact correlate1dAt_mem_bounds sigma radius (colList g j) i lo hi
    (colList_inBounds g r c j lo hi hrect hb hjc)
    (by rw [length_colList, hrect.1]; exact hr)

lemma inBounds_smoothAxis1 (sigma : ℝ) (radius : Nat) (h : Grid) (lo hi : ℝ)
    (hb : InBounds lo hi h) (hrows : ∀ row ∈ h, 0 < row.length) :
    InBounds lo hi (smoothAxis1 sigma radius h) := by
  intro row hrow a ha
  rcases List.mem_map.mp hrow with ⟨row0, hrow0, rfl⟩
  rcases List.mem_map.mp ha with ⟨j, hj, rfl⟩
  exact correlate1dAt_mem_bounds sigma radius row0 j lo hi
    (fun b hbm => hb row0 hrow0 b hbm) (hrows row0 hrow0)

lemma smoothAxis0_rows_pos (sigma : ℝ) (radius : Nat) (g : Grid) (r c : Nat)
    (hrect : Rect g r c) (hc : 0 < c) :
    ∀ row ∈ smoothAxis0 sigma radius g, 0 < row.length := by
  intro row hrow
  rcases List.mem_map.mp hrow with ⟨i, hi, rfl⟩
  have hig : i < g.length := List.mem_range.mp hi
  simp only [List.length_map, List.length_range]
  rw [hrect.2 _ (getD_mem_of_lt g i hig)]
  exact hc

lemma gshape_smoothAxis0 (sigma : ℝ) (radius : Nat) (g : Grid) :
    gshape (smoothAxis0 sigma radius g) = gshape g := by
  unfold gshape smoothAxis0
  rw [List.map_map]
  simp only [Function.comp_def, List.length_map, List.length_range]
  exact range_length_map_getD g List.length

lemma gshape_smoothAxis1 (sigma : ℝ) (radius : Nat) (g : Grid) :
    gshape (smoothAxis1 sigma radius g) = gshape g := by
  unfold gshape smoothAxis1
  rw [List.map_map]
  exact List.map_congr_left (fun row _ => by simp)

lemma gshape_gaussian_filter (g : Grid) :
    gshape (gaussian_filter g) = gshape g := by
  unfold gaussian_filter
  rw [gshape_smoothAxis1, gshape_smoothAxis0]

/-- C7: Gaussian pre-smoothing (sigma 0.5, window radius 2) preserves
the shape of every grid — also when applied twice — and, on every
nonempty rectangular grid, each output value is a convex combination of
input values, hence lies exactly within any bounds `[lo, hi]` that
enclose the input grid (in particular within its min/max bounds, with
tolerance zero). -/
theorem gaussian_filter_shape_bounds (g : Grid) (r c : Nat) (lo hi : ℝ)
    (hrect : Rect g r c) (hr : 0 < r) (hc : 0 < c) (hb : InBounds lo hi g) :
    gshape (gaussian_filter g) = gshape g ∧
    gshape (gaussian_filter (gaussian_filter g)) = gshape g ∧
    InBounds lo hi (gaussian_filter g) := by
  refine ⟨gshape_gaussian_filter g, ?_, ?_⟩
  · rw [gshape_gaussian_filter, gshape_gaussian_filter]
  · unfold gaussian_filter
    exact inBounds_smoothAxis1 _ _ _ lo hi
      (inBounds_smoothAxis0 _ _ g r c hrect hr lo hi hb)
      (smoothAxis0_rows_pos _ _ g r c hrect hc)

/-- C7 witness: the theorem instantiated on the constant grid
`[[1, 1], [1, 1]]` with the enclosing bounds `[1, 1]`. -/
theorem gaussian_filter_shape_bounds_witness :
    gshape (gaussian_filter [[(1 : ℝ), 1], [1, 1]])
        = gshape [[(1 : ℝ), 1], [1, 1]] ∧
    gshape (gaussian_filter (gaussian_filter [[(1 : ℝ), 1], [1, 1]]))
        = gshape [[(1 : ℝ), 1], [1, 1]] ∧
    InBounds 1 1 (gaussian_filter [[(1 : ℝ), 1], [1, 1]]) := by
  refine gaussian_filter_shape_bounds [[(1 : ℝ), 1], [1, 1]] 2 2 1 1
    ⟨rfl, ?_⟩ (by omega) (by omega) ?_
  · intro row hrow
    rcases List.mem_cons.mp hrow with h | h
    · subst h; rfl
    · rcases List.mem_cons.mp h with h2 | h2
      · subst h2; rfl
      · simp at h2
  · intro row hrow a ha
    rcases List.mem_cons.mp hrow with h | h
    · subst h
      have : a = 1 := by simpa using ha
      subst this
      exact ⟨le_refl 1, le_refl 1⟩
    · rcases List.mem_cons.mp h with h2 | h2
      · subst h2
        have : a = 1 := by simpa using ha
        subst this
        exact ⟨le_refl 1, le_refl 1⟩
      · simp at h2

lemma foldl_min_const (xs : List ℝ) (x : ℝ) (h : ∀ b ∈ xs, b = x) :
    xs.foldl min x = x := by
  induction xs with
  | nil => rfl
  | cons b t ih =>
    have hb : b = x := h b (List.mem_cons_self b t)
    rw [List.foldl_cons, hb, min_self]
    exact ih (fun b2 hb2 => h b2 (List.mem_cons_of_mem _ hb2))

lemma foldl_max_const (xs : List ℝ) (x : ℝ) (h : ∀ b ∈ xs, b = x) :
    xs.foldl max x = x := by
  induction xs with
  | nil => rfl
  | cons b t ih =>
    have hb : b = x := h b (List.mem_cons_self b t)
    rw [List.foldl_cons, hb, max_self]
    exact ih (fun b2 hb2 => h b2 (List.mem_cons_of_mem _ hb2))

lemma listMax_sub_listMin_eq_zero (ds : List ℝ) (hne : ds ≠ [])
    (h : ∀ a ∈ ds, ∀ b ∈ ds, a = b) :
    listMax ds - listMin ds = 0 := by
  cases ds with
  | nil => exact absurd rfl hne
  | cons x xs =>
    have hx : ∀ b ∈ xs, b = x := fun b hb =>
      h b (List.mem_cons_of_mem _ hb) x (List.mem_cons_self x xs)
    show xs.foldl max x - xs.foldl min x = 0
    rw [foldl_max_const xs x hx, foldl_min_const xs x hx, sub_self]

/-- C9: in the 2-D variant, the streamline-density normalization
divides by `max - min` of the interpolated field magnitude with no
guard; on every well-formed grid whose interpolated field magnitude is
identical at every sampled point, the divisor is zero and the result is
NaN (`0.0 / 0.0` at every entry, modelled as `none`). -/
theorem density_normalization_nan (g : Grid) (r c : Nat)
    (hrect : Rect g r c) (hr : 2 ≤ r) (hc : 2 ≤ c)
    (huni : ∀ a ∈ lab_density_grid g, ∀ b ∈ lab_density_grid g, a = b) :
    listMax (lab_density_grid g) - listMin (lab_density_grid g) = 0 ∧
    lab_density_normalized g = none := by
  have hAne : linspace0 ((g.length : ℝ) - 1) 30 ≠ [] := by
    unfold linspace0
    simp only [ne_eq, List.map_eq_nil_iff, List.range_eq_nil]
    omega
  obtain ⟨y0, hy0⟩ := List.exists_mem_of_ne_nil _ hAne
  have hne : lab_density_grid g ≠ [] := by
    unfold lab_density_grid
    intro hnil
    rw [List.flatten_eq_nil_iff] at hnil
    have hrow := hnil ((linspace0 (((g.getD 0 []).length : ℝ) - 1) 30).map
        (fun x => interpLinear (lab_E_magnitude g) y0 x))
      (List.mem_map.mpr ⟨y0, hy0, rfl⟩)
    have hA2 := List.map_eq_nil_iff.mp hrow
    unfold linspace0 at hA2
    have h30 := List.map_eq_nil_iff.mp hA2
    rw [List.range_eq_nil] at h30
    omega
  have hz := listMax_sub_listMin_eq_zero (lab_density_grid g) hne huni
  refine ⟨hz, ?_⟩
  unfold lab_density_normalized
  rw [if_pos hz]

lemma getD_zero_of_all_zero (v : List ℝ) (h : ∀ a ∈ v, a = 0) (k : Nat) :
    v.getD k 0 = 0 := by
  rcases lt_or_ge k v.length with hk | hk
  · rw [List.getD_eq_getElem _ _ hk]
    exact h _ (List.getElem_mem hk)
  · exact List.getD_eq_default _ _ hk

lemma val_zero_of_all_zero (g : Grid) (h : ∀ row ∈ g, ∀ a ∈ row, a = 0)
    (i j : Nat) : val g i j = 0 := by
  unfold val
  rcases lt_or_ge i g.length with hk | hk
  · exact getD_zero_of_all_zero _ (h _ (getD_mem_of_lt g i hk)) j
  · rw [List.getD_eq_default _ _ hk]
    rfl

lemma gradient1At_zero (d : ℝ) (v : List ℝ) (h : ∀ a ∈ v, a = 0) (i : Nat) :
    gradient1At d v i = 0 := by
  unfold gradient1At
  simp only [getD_zero_of_all_zero v h]
  split
  · simp
  · split
    · simp
    · simp

lemma allZero_colList (g : Grid) (h : ∀ row ∈ g, ∀ a ∈ row, a = 0) (j : Nat) :
    ∀ a ∈ colList g j, a = 0 := by
  intro a ha
  rcases List.mem_map.mp ha with ⟨row, hrow, rfl⟩
  exact getD_zero_of_all_zero row (h row hrow) j

lemma allZero_gradAxis1 (d : ℝ) (g : Grid)
    (h : ∀ row ∈ g, ∀ a ∈ row, a = 0) :
    ∀ row ∈ gradAxis1 d g, ∀ a ∈ row, a = 0 := by
  intro row hrow a ha
  rcases List.mem_map.mp hrow with ⟨row0, hrow0, rfl⟩
  rcases List.mem_map.mp ha with ⟨j, hj, rfl⟩
  exact gradient1At_zero d row0 (h row0 hrow0) j

lemma allZero_gradAxis0 (d : ℝ) (g : Grid)
    (h : ∀ row ∈ g, ∀ a ∈ row, a = 0) :
    ∀ row ∈ gradAxis0 d g, ∀ a ∈ row, a = 0 := by
  intro row hrow a ha
  rcases List.mem_map.mp hrow with ⟨i, him, rfl⟩
  rcases List.mem_map.mp ha with ⟨j, hjm, rfl⟩
  exact gradient1At_zero d (colList g j) (allZero_colList g h j) i

lemma allZero_negGrid (g : Grid) (h : ∀ row ∈ g, ∀ a ∈ row, a = 0) :
    ∀ row ∈ negGrid g, ∀ a ∈ row, a = 0 := by
  intro row hrow a ha
  rcases List.mem_map.mp hrow with ⟨row0, hrow0, rfl⟩
  rcases List.mem_map.mp ha with ⟨b, hb, rfl⟩
  rw [h row0 hrow0 b hb, neg_zero]

lemma allZero_magnitudeGrid (fx fy : Grid)
    (hfx : ∀ row ∈ fx, ∀ a ∈ row, a = 0)
    (hfy : ∀ row ∈ fy, ∀ a ∈ row, a = 0) :
    ∀ row ∈ magnitudeGrid fx fy, ∀ a ∈ row, a = 0 := by
  intro row hrow a ha
  rcases List.mem_map.mp hrow with ⟨i, him, rfl⟩
  rcases List.mem_map.mp ha with ⟨j, hjm, rfl⟩
  rw [val_zero_of_all_zero fx hfx, val_zero_of_all_zero fy hfy]
  simp

lemma interpLinear_zero (g : Grid) (h : ∀ row ∈ g, ∀ a ∈ row, a = 0)
    (y x : ℝ) : interpLinear g y x = 0 := by
  unfold interpLinear
  simp only [val_zero_of_all_zero g h]
  ring

/-- C9 witness: the constant grid `[[0, 0], [0, 0]]` has uniformly zero
field magnitude, so every sampled density value is zero, the divisor
`max - min` is zero, and the unguarded normalization yields NaN. -/
theorem density_normalization_nan_witness :
    listMax (lab_density_grid [[(0 : ℝ), 0], [0, 0]])
      - listMin (lab_density_grid [[(0 : ℝ), 0], [0, 0]]) = 0 ∧
    lab_density_normalized [[(0 : ℝ), 0], [0, 0]] = none := by
  have hz : ∀ row ∈ ([[(0 : ℝ), 0], [0, 0]] : Grid), ∀ a ∈ row, a = 0 := by
    intro row hrow a ha
    rcases List.mem_cons.mp hrow with h | h
    · subst h
      simpa using ha
    · rcases List.mem_cons.mp h with h2 | h2
      · subst h2
        simpa using ha
      · simp at h2
  have hmagzero : ∀ row ∈ lab_E_magnitude [[(0 : ℝ), 0], [0, 0]],
      ∀ a ∈ row, a = 0 :=
    allZero_magnitudeGrid _ _
      (allZero_negGrid _ (allZero_gradAxis1 1 _ hz))
      (allZero_negGrid _ (allZero_gradAxis0 1 _ hz))
  have helem : ∀ a ∈ lab_density_grid [[(0 : ℝ), 0], [0, 0]], a = 0 := by
    intro a ha
    unfold lab_density_grid at ha
    rcases List.mem_flatten.mp ha with ⟨l, hl, hal⟩
    rcases List.mem_map.mp hl with ⟨y, hy, rfl⟩
    rcases List.mem_map.mp hal with ⟨x, hx, rfl⟩
    exact interpLinear_zero _ hmagzero y x
  refine density_normalization_nan [[(0 : ℝ), 0], [0, 0]] 2 2 ⟨rfl, ?_⟩
    (by omega) (by omega) ?_
  · intro row hrow
    rcases List.mem_cons.mp hrow with h | h
    · subst h; rfl
    · rcases List.mem_cons.mp h with h2 | h2
      · subst h2; rfl
      · simp at h2
  · intro a ha b hb
    rw [helem a ha, helem b hb]
